import Mathlib

/-!
Verification of the statistics, budget, reconfiguration and pool-management
logic of `httpmon.cc`, a real-time HTTP load generator and monitor.

Modelling conventions: latency samples and timestamps (C++ `double`) are
modelled as rationals; the IEEE special values produced by dividing finite
doubles are modelled by `CDouble`; a vector read outside its range
(undefined behaviour in C++) surfaces as `none`; the concurrent parts
(worker threads racing on the atomic request budget, appends against
drains on the mutex-guarded statistics) are modelled as interleavings of
the atomic steps the source performs under the lock or on the atomic.
-/

/-- Embedding of `median(begin, end)` from `httpmon.cc` (lines 50-60).
The C++ helper receives an iterator range over a sorted vector; the range is
modelled as a list and iterator dereference as `l[i]?`, so a read outside the
range yields `none`.  `int n = end - begin`, and the source computes `(n-1) % 2`
and `(n-1)/2` with C++ truncated `int` arithmetic, modelled by `Int.tmod` and
`Int.tdiv` (for `n = 0` C++ yields `(n-1) % 2 = -1` and `(n-1)/2 = 0`). -/
def cppMedian (l : List ℚ) : Option ℚ :=
  let n : ℤ := l.length
  if (n - 1).tmod 2 = 0 then
    l[((n - 1).tdiv 2).toNat]?
  else
    match l[((n - 1).tdiv 2).toNat]?, l[((n - 1).tdiv 2 + 1).toNat]? with
    | some x, some y => some ((x + y) / 2)
    | _, _ => none

/-- Return array of `quartiles`: minimum, first quartile, median, third
quartile, maximum; `none` models a `NAN` entry or an out-of-range read. -/
structure QuartileResult where
  min : Option ℚ
  q1 : Option ℚ
  med : Option ℚ
  q3 : Option ℚ
  max : Option ℚ
deriving DecidableEq

/-- Embedding of `quartiles(a)` (lines 62-81): all entries start as `NAN`
(`none`); for `n ≥ 1` the vector is sorted ascending (`std::sort`, modelled by
`List.insertionSort (· ≤ ·)`) and the five entries are filled in; the half
ranges use the `size_t` division `n / 2`, i.e. `Nat` division. -/
def quartiles (a : List ℚ) : QuartileResult :=
  let n := a.length
  if n < 1 then ⟨none, none, none, none, none⟩
  else
    let s := List.insertionSort (· ≤ ·) a
    { min := s[0]?
      q1 := cppMedian (s.take (n / 2))
      med := cppMedian s
      q3 := cppMedian (s.drop (n / 2))
      max := s[n - 1]? }

/-- Return array of `percentiles`: the source comment and the report labels
call these the 95th and 99th percentile. -/
structure PercentileResult where
  p95 : Option ℚ
  p99 : Option ℚ
deriving DecidableEq

/-- Embedding of `percentiles(a)` (lines 83-98): for `n ≥ 1`, sort ascending
and take the median of the suffixes starting at the `size_t` offsets
`90 * n / 100` and `98 * n / 100`. -/
def percentiles (a : List ℚ) : PercentileResult :=
  let n := a.length
  if n < 1 then ⟨none, none⟩
  else
    let s := List.insertionSort (· ≤ ·) a
    { p95 := cppMedian (s.drop (90 * n / 100))
      p99 := cppMedian (s.drop (98 * n / 100)) }

/-- Result of an IEEE-754 division of two finite doubles: finite, a signed
infinity, or `NaN` (rounding of finite results is not modelled). -/
inductive CDouble where
  | nan : CDouble
  | posInf : CDouble
  | negInf : CDouble
  | fin : ℚ → CDouble
deriving DecidableEq

/-- IEEE-754 division of two finite doubles: `0/0` is `NaN` and `x/0` for
`x ≠ 0` is a signed infinity. -/
def ddiv (x y : ℚ) : CDouble :=
  if y = 0 then
    if x = 0 then CDouble.nan
    else if 0 < x then CDouble.posInf
    else CDouble.negInf
  else CDouble.fin (x / y)

/-- Embedding of `average(a)` (lines 100-105): `std::accumulate` from `0.0`,
then division by `a.size()`. -/
def average (a : List ℚ) : CDouble :=
  ddiv (a.foldl (· + ·) 0) (a.length : ℚ)

/-- The statistics fields of `HttpClientControl` that are guarded by
`control.mutex`: the interval error counter, the two marker counters, and the
latency sample buffer. -/
structure StatState where
  numErrors : ℕ
  numOptionalStuff1 : ℕ
  numOptionalStuff2 : ℕ
  latencies : List ℚ
deriving DecidableEq

/-- The statistics fields as initialized in `main` (lines 368-370 and the
empty `latencies` vector). -/
def initStats : StatState := ⟨0, 0, 0, []⟩

/-- Embedding of the worker's record critical section (lines 184-193): under
the lock, bump the error counter on failure, bump each marker counter whose
bit is set, and append the elapsed latency unconditionally. -/
def recordResult (st : StatState) (error stuff1 stuff2 : Bool) (lastLatency : ℚ) : StatState :=
  { numErrors := st.numErrors + (if error then 1 else 0)
    numOptionalStuff1 := st.numOptionalStuff1 + (if stuff1 then 1 else 0)
    numOptionalStuff2 := st.numOptionalStuff2 + (if stuff2 then 1 else 0)
    latencies := st.latencies ++ [lastLatency] }

/-- The values copied out by the drain critical section of `report`. -/
structure Drained where
  numErrors : ℕ
  numOptionalStuff1 : ℕ
  numOptionalStuff2 : ℕ
  latencies : List ℚ
deriving DecidableEq

/-- Embedding of the drain critical section of `report` (lines 213-226): under
the lock, copy out the counters and the sample buffer, then reset all of them
to zero and clear the buffer. -/
def drainStats (st : StatState) : Drained × StatState :=
  (⟨st.numErrors, st.numOptionalStuff1, st.numOptionalStuff2, st.latencies⟩,
   ⟨0, 0, 0, []⟩)

/-- States of the mutex-guarded statistics reachable by interleaving worker
record sections and reporter drains, starting from the initialization in
`main`. Each constructor is one critical section executed atomically. -/
inductive StatsReachable : StatState → Prop where
  | init : StatsReachable initStats
  | record (st : StatState) (e s1 s2 : Bool) (lat : ℚ) :
      StatsReachable st → StatsReachable (recordResult st e s1 s2 lat)
  | drain (st : StatState) : StatsReachable st → StatsReachable (drainStats st).2

/-- The distributional statistics computed by `report` (lines 228-244) from a
single drained batch: the five quartile entries, the two tail statistics, the
arithmetic mean, and the two classifier rates `numOptionalStuff / |samples|`. -/
structure ReportLine where
  latencyQuartiles : QuartileResult
  latency95 : Option ℚ
  latency99 : Option ℚ
  meanLatency : CDouble
  recommendationRate : CDouble
  commentRate : CDouble
deriving DecidableEq

/-- The computation `report` performs on one drained batch (lines 228-244);
throughput and the cumulative counters are handled separately. -/
def computeReport (d : Drained) : ReportLine :=
  { latencyQuartiles := quartiles d.latencies
    latency95 := (percentiles d.latencies).p95
    latency99 := (percentiles d.latencies).p99
    meanLatency := average d.latencies
    recommendationRate := ddiv (d.numOptionalStuff1 : ℚ) (d.latencies.length : ℚ)
    commentRate := ddiv (d.numOptionalStuff2 : ℚ) (d.latencies.length : ℚ) }

/-- State of the shared atomic request budget `control.numRequestsLeft`
together with the pool of `C` workers: which workers are still in their send
loop, and how many requests have been sent in total. -/
structure PoolState (C : ℕ) where
  budget : ℤ
  alive : Fin C → Bool
  sends : ℕ

/-- One worker reaching the loop head `while (--control.numRequestsLeft >= 0)`
(line 144): the atomic pre-decrement returns the new value; a non-negative
result admits exactly one send (the loop body), a negative result makes the
worker leave its loop for good.  A worker that has already exited takes no
step. -/
def poolStep {C : ℕ} (s : PoolState C) (w : Fin C) : PoolState C :=
  if s.alive w then
    if 0 ≤ s.budget - 1 then
      { s with budget := s.budget - 1, sends := s.sends + 1 }
    else
      { s with budget := s.budget - 1, alive := Function.update s.alive w false }
  else s

/-- Initial pool state: budget `N` (`--count`), all `C` workers live, no
request sent yet. -/
def initPool (C : ℕ) (N : ℤ) : PoolState C :=
  { budget := N, alive := fun _ => true, sends := 0 }

/-- Run the pool under an interleaving: the schedule lists, in order, which
worker reaches the atomic decrement next. -/
def runPool {C : ℕ} (s : PoolState C) : List (Fin C) → PoolState C
  | [] => s
  | w :: t => runPool (poolStep s w) t

/-- Number of workers that have left their send loop. -/
def deadCount {C : ℕ} (s : PoolState C) : ℕ :=
  (Finset.univ.filter fun w => s.alive w = false).card

/-- Outcome of one execution of the think-time block: how long the worker
sleeps, its private last-scheduled-arrival time, and the cumulative
`numOpenQueuing` counter. -/
structure WaitOutcome where
  sleepFor : ℚ
  lastArrivalTime : ℚ
  numOpenQueuing : ℕ
deriving DecidableEq

/-- Embedding of the think-time block of `httpClientMain` (lines 151-173):
if `thinkTime > 0`, a sampled `interval` is used; in open mode the sleep is
adjusted to `max(lastArrivalTime + interval - now, 0)`, the queuing counter is
bumped exactly when that adjusted sleep is zero, and the arrival schedule
advances to `lastArrivalTime + interval` unconditionally; in closed mode the
worker sleeps for the raw sampled interval.  With `thinkTime ≤ 0` the block is
skipped entirely. -/
def thinkTimeStep (openMode : Bool) (thinkTime interval lastArrivalTime nowTime : ℚ)
    (numOpenQueuing : ℕ) : WaitOutcome :=
  if 0 < thinkTime then
    if openMode then
      let nextArrivalTime := lastArrivalTime + interval
      let interval2 := max (nextArrivalTime - nowTime) 0
      { sleepFor := interval2
        lastArrivalTime := nextArrivalTime
        numOpenQueuing := if interval2 = 0 then numOpenQueuing + 1 else numOpenQueuing }
    else
      { sleepFor := interval, lastArrivalTime := lastArrivalTime,
        numOpenQueuing := numOpenQueuing }
  else
    { sleepFor := 0, lastArrivalTime := lastArrivalTime, numOpenQueuing := numOpenQueuing }

/-- Modelled from boost
`split(tokens, s, is_any_of(seps), token_compress_on)`: maximal runs of
separator characters act as one separator, while a leading or trailing
separator still yields an empty boundary token.  `afterSep` records whether the
previous character was a separator, `cur` accumulates the current token in
reverse. -/
def splitCompressGo (seps : List Char) : List Char → Bool → List Char → List (List Char)
  | [], _, cur => [cur.reverse]
  | c :: rest, afterSep, cur =>
    if c ∈ seps then
      if afterSep then splitCompressGo seps rest true cur
      else cur.reverse :: splitCompressGo seps rest true []
    else splitCompressGo seps rest false (c :: cur)

/-- Modelled from boost `split` with `token_compress_on` (see
`splitCompressGo`). -/
def splitCompress (seps : List Char) (s : List Char) : List (List Char) :=
  splitCompressGo seps s false []

/-- Value of the maximal leading run of decimal digits, most-significant digit
first; scanning stops at the first non-digit, as in libc `atoi`/`strtod`. -/
def parseDigits : List Char → ℕ → ℕ
  | [], acc => acc
  | c :: rest, acc =>
    if c.isDigit then parseDigits rest (10 * acc + (c.toNat - 48)) else acc

/-- Modelled from libc `atoi`: optional leading whitespace, an optional sign,
then a run of decimal digits (no digits parse as 0; overflow is not
modelled). -/
def atoi (s : List Char) : ℤ :=
  match s.dropWhile Char.isWhitespace with
  | '-' :: rest => -(parseDigits rest 0 : ℤ)
  | '+' :: rest => (parseDigits rest 0 : ℤ)
  | rest => (parseDigits rest 0 : ℤ)

/-- Value of a run of fractional digits: the digit at scale `10⁻ᵏ` contributes
its value times that scale. -/
def parseFracDigits : List Char → ℚ → ℚ → ℚ
  | [], _, acc => acc
  | c :: rest, scale, acc =>
    if c.isDigit then parseFracDigits rest (scale / 10) (acc + scale * ((c.toNat - 48 : ℕ) : ℚ))
    else acc

/-- Magnitude part of `atof`: digits, then an optional decimal point and
fraction digits. -/
def atofMag (s : List Char) : ℚ :=
  let ip := parseDigits s 0
  match s.dropWhile Char.isDigit with
  | '.' :: rest => (ip : ℚ) + parseFracDigits (rest.takeWhile Char.isDigit) (1 / 10) 0
  | _ => (ip : ℚ)

/-- Modelled from libc `atof`/`strtod`, restricted to the plain decimal forms
relevant to the reconfiguration protocol: optional whitespace, optional sign,
digits, optional point and fraction digits (exponents and hex floats are not
modelled). -/
def atof (s : List Char) : ℚ :=
  match s.dropWhile Char.isWhitespace with
  | '-' :: rest => -(atofMag rest)
  | '+' :: rest => atofMag rest
  | rest => atofMag rest

/-- The tunable fields of `HttpClientControl` written by `processInput`:
source fields `thinkTime`, `concurrency` and `open` (a keyword in Lean, hence
`openMode`). -/
structure TunableConfig where
  thinkTime : ℚ
  concurrency : ℤ
  openMode : Bool
deriving DecidableEq

/-- The per-token `key=value` dispatch of `processInput` (lines 283-307): the
token is split on `=` with compression; a token that does not yield exactly two
parts is logged to stderr and skipped; `thinktime` is parsed with `atof`,
`concurrency` with `atoi`, `open` with `atoi` whose int-to-bool conversion is
false exactly on zero; unknown keys are logged and ignored. -/
def processToken (c : TunableConfig) (tok : List Char) : TunableConfig :=
  let keyvalue := splitCompress ['='] tok
  if keyvalue.length ≠ 2 then c
  else
    let key := keyvalue.getD 0 []
    let value := keyvalue.getD 1 []
    if key = "thinktime".toList then { c with thinkTime := atof value }
    else if key = "concurrency".toList then { c with concurrency := atoi value }
    else if key = "open".toList then { c with openMode := atoi value != 0 }
    else c

/-- One reconfiguration line (lines 277-307): tokenize on space/newline with
compression, then apply each token in order. -/
def processLine (c : TunableConfig) (line : List Char) : TunableConfig :=
  (splitCompress [' ', '\n'] line).foldl processToken c

/-- Modelled from `std::string::find_first_of(ch, pos)`: index of the first
occurrence of `ch` at position `pos` or later, `none` for `npos`. -/
def findIdxFrom (ch : Char) : List Char → ℕ → Option ℕ
  | [], _ => none
  | c :: rest, 0 => if c = ch then some 0 else (findIdxFrom ch rest 0).map (· + 1)
  | _ :: rest, pos + 1 => (findIdxFrom ch rest pos).map (· + 1)

/-- Embedding of the line-extraction loop of `processInput` (lines 268-308).
The source searches for the next newline from offset `prevInputSize` (the
buffer length before the read) even after earlier lines have been erased from
the front of the buffer.  `fuel` bounds the iteration count: every iteration
erases at least one character, so `input.length` suffices and the
fuel-exhausted case is unreachable (the loop can only run out of fuel once the
buffer is empty, where the source loop also returns). -/
def processLinesLoop (prevInputSize : ℕ) :
    ℕ → List Char → TunableConfig → List Char × TunableConfig
  | 0, input, c => (input, c)
  | fuel + 1, input, c =>
    match findIdxFrom '\n' input prevInputSize with
    | none => (input, c)
    | some pos =>
        processLinesLoop prevInputSize fuel (input.drop (pos + 1))
          (processLine c (input.take pos))

/-- Embedding of `processInput` (lines 254-309): `buffer` is the carry-over
string, `newData` the bytes read non-blockingly from stdin this tick; if
nothing new arrived the call returns immediately, otherwise complete lines are
extracted and applied.  Returns the remaining buffer and the updated
tunables. -/
def processInput (buffer newData : List Char) (c : TunableConfig) :
    List Char × TunableConfig :=
  let prevInputSize := buffer.length
  let input := buffer ++ newData
  if input.length = prevInputSize then (input, c)
  else processLinesLoop prevInputSize input.length input c

/-- Embedding of the pool growth loop of `main` (lines 413-415): while the
tracked list is shorter than the desired concurrency, spawn a worker whose id
is the current size. -/
def growPool (threads : List ℕ) (conc : ℤ) : List ℕ :=
  if _h : (threads.length : ℤ) < conc then growPool (threads ++ [threads.length]) conc
  else threads
termination_by (conc - threads.length).toNat
decreasing_by simp [List.length_append]; omega

/-- Embedding of the pool shrink loop of `main` (lines 416-421): while the
tracked list is longer than the desired concurrency, signal, detach and drop
the most recently spawned worker (`back()`/`pop_back()`).  Calling `back()` on
an empty vector is undefined behaviour and surfaces as `none`. -/
def shrinkPool (threads : List ℕ) (conc : ℤ) : Option (List ℕ) :=
  if (threads.length : ℤ) > conc then
    match threads with
    | [] => none
    | t :: ts => shrinkPool ((t :: ts).dropLast) conc
  else some threads
termination_by threads.length
decreasing_by simp [List.length_dropLast]

/-- One pool-reconciliation step of the main loop (lines 413-421): grow, then
shrink. -/
def reconcilePool (threads : List ℕ) (conc : ℤ) : Option (List ℕ) :=
  shrinkPool (growPool threads conc) conc

/-! ## Helper lemmas about the median of a sorted range -/

lemma tmod_natCast_two (m : ℕ) : ((m : ℤ)).tmod 2 = ((m % 2 : ℕ) : ℤ) := rfl

lemma tdiv_natCast_two (m : ℕ) : ((m : ℤ)).tdiv 2 = ((m / 2 : ℕ) : ℤ) := rfl

lemma toNat_natCast_add_one (k : ℕ) : ((k : ℤ) + 1).toNat = k + 1 := by omega

/-- For a non-empty range the C++ `int` arithmetic of `median` coincides with
`Nat` arithmetic on `m = n - 1`. -/
lemma cppMedian_eq_of_length (l : List ℚ) (m : ℕ) (hl : l.length = m + 1) :
    cppMedian l =
      if m % 2 = 0 then l[m / 2]?
      else
        match l[m / 2]?, l[m / 2 + 1]? with
        | some x, some y => some ((x + y) / 2)
        | _, _ => none := by
  have hcast : ((l.length : ℤ) - 1) = (m : ℤ) := by rw [hl]; push_cast; ring
  simp only [cppMedian, hcast, tmod_natCast_two, tdiv_natCast_two, Int.toNat_natCast,
    toNat_natCast_add_one, Nat.cast_eq_zero]

/-- The median of a non-empty range is defined (both branch reads are in
range). -/
lemma cppMedian_isSome (l : List ℚ) (hne : l ≠ []) : ∃ v, cppMedian l = some v := by
  obtain ⟨m, hm⟩ : ∃ m, l.length = m + 1 := by
    cases l with
    | nil => exact absurd rfl hne
    | cons a t => exact ⟨t.length, rfl⟩
  rw [cppMedian_eq_of_length l m hm]
  by_cases hpar : m % 2 = 0
  · have h2 : m / 2 < l.length := by omega
    exact ⟨l[m / 2], by rw [if_pos hpar, List.getElem?_eq_getElem h2]⟩
  · have h1 : m / 2 < l.length := by omega
    have h2 : m / 2 + 1 < l.length := by omega
    refine ⟨(l[m / 2] + l[m / 2 + 1]) / 2, ?_⟩
    rw [if_neg hpar, List.getElem?_eq_getElem h1, List.getElem?_eq_getElem h2]

/-- On an odd-length range, `median` returns the single middle element. -/
lemma cppMedian_odd (t : List ℚ) (hodd : t.length % 2 = 1) :
    cppMedian t = t[t.length / 2]? := by
  obtain ⟨m, hm⟩ : ∃ m, t.length = m + 1 := ⟨t.length - 1, by omega⟩
  rw [cppMedian_eq_of_length t m hm, if_pos (by omega)]
  have e : t.length / 2 = m / 2 := by omega
  rw [e]

/-- On a non-empty even-length range, `median` returns the mean of the two
middle elements. -/
lemma cppMedian_even (t : List ℚ) (hne : t ≠ []) (heven : t.length % 2 = 0) :
    ∃ x y, t[t.length / 2 - 1]? = some x ∧ t[t.length / 2]? = some y ∧
      cppMedian t = some ((x + y) / 2) := by
  obtain ⟨m, hm⟩ : ∃ m, t.length = m + 1 := by
    cases t with
    | nil => exact absurd rfl hne
    | cons a t => exact ⟨t.length, rfl⟩
  have hpar : ¬ m % 2 = 0 := by omega
  have h1 : m / 2 < t.length := by omega
  have h2 : m / 2 + 1 < t.length := by omega
  have e1 : t.length / 2 - 1 = m / 2 := by omega
  have e2 : t.length / 2 = m / 2 + 1 := by omega
  refine ⟨t[m / 2], t[m / 2 + 1], ?_, ?_, ?_⟩
  · rw [e1, List.getElem?_eq_getElem h1]
  · rw [e2, List.getElem?_eq_getElem h2]
  · rw [cppMedian_eq_of_length t m hm, if_neg hpar, List.getElem?_eq_getElem h1,
      List.getElem?_eq_getElem h2]

/-- Monotonicity of indexing into a sorted list, stated on `l[i]?`. -/
lemma sorted_getElem?_mono (l : List ℚ) (hs : l.Sorted (· ≤ ·)) {i j : ℕ} {a b : ℚ}
    (ha : l[i]? = some a) (hb : l[j]? = some b) (hij : i ≤ j) : a ≤ b := by
  obtain ⟨hi, rfl⟩ := List.getElem?_eq_some_iff.mp ha
  obtain ⟨hj, rfl⟩ := List.getElem?_eq_some_iff.mp hb
  rcases eq_or_lt_of_le hij with h | h
  · subst h; exact le_rfl
  · have := List.pairwise_iff_get.mp hs ⟨i, hi⟩ ⟨j, hj⟩ (Fin.mk_lt_mk.mpr h)
    simpa using this

/-- On a sorted non-empty range, the median lies between the elements at
offsets `(n-1)/2` and `n/2`. -/
lemma cppMedian_bounds (l : List ℚ) (hne : l ≠ []) (hs : l.Sorted (· ≤ ·)) :
    ∃ v a b, cppMedian l = some v ∧
      l[(l.length - 1) / 2]? = some a ∧ l[l.length / 2]? = some b ∧ a ≤ v ∧ v ≤ b := by
  obtain ⟨m, hm⟩ : ∃ m, l.length = m + 1 := by
    cases l with
    | nil => exact absurd rfl hne
    | cons a t => exact ⟨t.length, rfl⟩
  by_cases hpar : m % 2 = 0
  · have h2 : m / 2 < l.length := by omega
    have e1 : (l.length - 1) / 2 = m / 2 := by omega
    have e2 : l.length / 2 = m / 2 := by omega
    refine ⟨l[m / 2], l[m / 2], l[m / 2], ?_, ?_, ?_, le_rfl, le_rfl⟩
    · rw [cppMedian_eq_of_length l m hm, if_pos hpar, List.getElem?_eq_getElem h2]
    · rw [e1, List.getElem?_eq_getElem h2]
    · rw [e2, List.getElem?_eq_getElem h2]
  · have h1 : m / 2 < l.length := by omega
    have h2 : m / 2 + 1 < l.length := by omega
    have e1 : (l.length - 1) / 2 = m / 2 := by omega
    have e2 : l.length / 2 = m / 2 + 1 := by omega
    have hxy : l[m / 2] ≤ l[m / 2 + 1] :=
      sorted_getElem?_mono l hs (List.getElem?_eq_getElem h1) (List.getElem?_eq_getElem h2)
        (by omega)
    refine ⟨(l[m / 2] + l[m / 2 + 1]) / 2, l[m / 2], l[m / 2 + 1], ?_, ?_, ?_,
      by linarith, by linarith⟩
    · rw [cppMedian_eq_of_length l m hm, if_neg hpar, List.getElem?_eq_getElem h1,
        List.getElem?_eq_getElem h2]
    · rw [e1, List.getElem?_eq_getElem h1]
    · rw [e2, List.getElem?_eq_getElem h2]

/-- On lists of length at least two, all five quartile entries are defined and
ordered. -/
lemma quartiles_chain (l : List ℚ) (hlen : 2 ≤ l.length) :
    ∃ mn q1v md q3v mx,
      quartiles l = ⟨some mn, some q1v, some md, some q3v, some mx⟩ ∧
      mn ≤ q1v ∧ q1v ≤ md ∧ md ≤ q3v ∧ q3v ≤ mx := by
  have hn1 : ¬ (l.length < 1) := by omega
  set s := List.insertionSort (· ≤ ·) l with hs_def
  have hslen : s.length = l.length := List.length_insertionSort _ _
  have hsorted : s.Sorted (· ≤ ·) := List.sorted_insertionSort _ _
  set k := l.length / 2 with hk_def
  have hk1 : 1 ≤ k := by omega
  have hkn : k < l.length := by omega
  have ht1len : (s.take k).length = k := by
    rw [List.length_take]; omega
  have ht1ne : s.take k ≠ [] := List.length_pos.mp (by rw [ht1len]; omega)
  have ht1sorted : (s.take k).Sorted (· ≤ ·) :=
    List.Pairwise.sublist (List.take_sublist _ _) hsorted
  have ht2len : (s.drop k).length = l.length - k := by
    rw [List.length_drop]; omega
  have ht2ne : s.drop k ≠ [] := List.length_pos.mp (by rw [ht2len]; omega)
  have ht2sorted : (s.drop k).Sorted (· ≤ ·) :=
    List.Pairwise.sublist (List.drop_sublist _ _) hsorted
  have hsne : s ≠ [] := List.length_pos.mp (by rw [hslen]; omega)
  obtain ⟨q1v, a1, b1, hq1, ha1, hb1, ha1v, hvb1⟩ := cppMedian_bounds _ ht1ne ht1sorted
  obtain ⟨md, am, bm, hmd, ham, hbm, hamv, hvbm⟩ := cppMedian_bounds _ hsne hsorted
  obtain ⟨q3v, a3, b3, hq3, ha3, hb3, ha3v, hvb3⟩ := cppMedian_bounds _ ht2ne ht2sorted
  rw [ht1len] at ha1 hb1
  rw [List.getElem?_take_of_lt (show (k - 1) / 2 < k by omega)] at ha1
  rw [List.getElem?_take_of_lt (show k / 2 < k by omega)] at hb1
  rw [ht2len] at ha3 hb3
  rw [List.getElem?_drop] at ha3 hb3
  rw [hslen] at ham hbm
  have h0 : 0 < s.length := by omega
  have hlast : l.length - 1 < s.length := by omega
  obtain ⟨mn, hmn⟩ : ∃ mn, s[0]? = some mn := ⟨_, List.getElem?_eq_getElem h0⟩
  obtain ⟨mx, hmx⟩ : ∃ mx, s[l.length - 1]? = some mx :=
    ⟨_, List.getElem?_eq_getElem hlast⟩
  refine ⟨mn, q1v, md, q3v, mx, ?_, ?_, ?_, ?_, ?_⟩
  · simp only [quartiles, if_neg hn1, ← hs_def, ← hk_def]
    rw [hmn, hmx, hq1, hmd, hq3]
  · exact le_trans (sorted_getElem?_mono s hsorted hmn ha1 (by omega)) ha1v
  · exact le_trans hvb1 (le_trans (sorted_getElem?_mono s hsorted hb1 ham (by omega)) hamv)
  · exact le_trans hvbm (le_trans (sorted_getElem?_mono s hsorted hbm ha3 (by omega)) ha3v)
  · exact le_trans hvb3 (sorted_getElem?_mono s hsorted hb3 hmx (by omega))

/-! ## Claims about the quartile computation (C1, C9, C10) -/

/-- Claim C1 as stated is false on the code: for the non-empty sample sequence
`[100]` the first quartile is computed by `median` over the empty lower half
`[0, 0)`, whose reads are out of range, so there are no five defined ordered
values. -/
theorem quartiles_singleton_not_ordered :
    ¬ ∃ mn q1v md q3v mx : ℚ,
        quartiles [(100 : ℚ)] = ⟨some mn, some q1v, some md, some q3v, some mx⟩ ∧
        mn ≤ q1v ∧ q1v ≤ md ∧ md ≤ q3v ∧ q3v ≤ mx := by
  rintro ⟨mn, q1v, md, q3v, mx, heq, -⟩
  have h : (quartiles [(100 : ℚ)]).q1 = none := by decide
  rw [heq] at h
  exact Option.noConfusion h

/-- Claim C1, amended to sequences of at least two samples: the quartile
computation returns five defined values with
`minimum ≤ Q1 ≤ median ≤ Q3 ≤ maximum`, and the `median` helper returns the
single middle element of an odd-length slice and the mean of the two middle
elements of a non-empty even-length slice. -/
theorem quartiles_ordered (l : List ℚ) (hlen : 2 ≤ l.length) :
    (∃ mn q1v md q3v mx,
      quartiles l = ⟨some mn, some q1v, some md, some q3v, some mx⟩ ∧
      mn ≤ q1v ∧ q1v ≤ md ∧ md ≤ q3v ∧ q3v ≤ mx) ∧
    (∀ t : List ℚ, t.length % 2 = 1 → cppMedian t = t[t.length / 2]?) ∧
    (∀ t : List ℚ, t ≠ [] → t.length % 2 = 0 →
      ∃ x y, t[t.length / 2 - 1]? = some x ∧ t[t.length / 2]? = some y ∧
        cppMedian t = some ((x + y) / 2)) :=
  ⟨quartiles_chain l hlen, cppMedian_odd, cppMedian_even⟩

/-- Witness for `quartiles_ordered` at the concrete unsorted input `[3, 1]`. -/
theorem quartiles_ordered_witness :
    2 ≤ ([(3 : ℚ), 1] : List ℚ).length ∧
    (∃ mn q1v md q3v mx,
      quartiles [(3 : ℚ), 1] = ⟨some mn, some q1v, some md, some q3v, some mx⟩ ∧
      mn ≤ q1v ∧ q1v ≤ md ∧ md ≤ q3v ∧ q3v ≤ mx) :=
  ⟨by decide, (quartiles_ordered [(3 : ℚ), 1] (by decide)).1⟩

/-- Claim C9: the worked example from the spec, `[100, 200, 300, 400]` ms,
yields minimum 100, Q1 150, median 250, Q3 350, maximum 400. -/
theorem quartiles_example_100_400 :
    quartiles [(100 : ℚ), 200, 300, 400] =
      ⟨some 100, some 150, some 250, some 350, some 400⟩ := by
  have h1 : Int.tmod 3 2 = 1 := by decide
  have h2 : Int.tdiv 3 2 = 1 := by decide
  have h3 : Int.tmod 1 2 = 1 := by decide
  have h4 : Int.tdiv 1 2 = 0 := by decide
  have h5 : Int.toNat 0 = 0 := by decide
  have h6 : Int.toNat 1 = 1 := by decide
  have h7 : Int.toNat 2 = 2 := by decide
  norm_num [quartiles, cppMedian, List.insertionSort, List.orderedInsert,
    h1, h2, h3, h4, h5, h6, h7]

/-- Claim C10: for a one-sample sequence the lower half slice `[0, n/2) = [0, 0)`
is empty; on it `median` takes the even-length branch (C++ `(0-1) % 2 = -1 ≠ 0`),
whose two reads are at offsets `(0-1)/2 = 0` and `(0-1)/2 + 1 = 1` of the empty
range and hence out of bounds (`none`), so the first-quartile entry is not
defined by any in-range element. -/
theorem quartiles_singleton_q1_oob (x : ℚ) :
    (List.insertionSort (· ≤ ·) [x]).take ([x].length / 2) = ([] : List ℚ) ∧
    ((0 : ℤ) - 1).tmod 2 ≠ 0 ∧
    (((0 : ℤ) - 1).tdiv 2).toNat = 0 ∧ (((0 : ℤ) - 1).tdiv 2 + 1).toNat = 1 ∧
    ([] : List ℚ)[0]? = none ∧ ([] : List ℚ)[1]? = none ∧
    cppMedian ([] : List ℚ) = none ∧
    (quartiles [x]).q1 = none := by
  have htake : (List.insertionSort (· ≤ ·) [x]).take ([x].length / 2) = ([] : List ℚ) := by
    have h : [x].length / 2 = 0 := by simp
    rw [h, List.take_zero]
  refine ⟨htake, by decide, by decide, by decide, rfl, rfl, rfl, ?_⟩
  show cppMedian ((List.insertionSort (· ≤ ·) [x]).take ([x].length / 2)) = none
  rw [htake]
  decide

/-- Witness for `quartiles_singleton_q1_oob` at the concrete sample `100`. -/
theorem quartiles_singleton_q1_oob_witness :
    (List.insertionSort (· ≤ ·) [(100 : ℚ)]).take ([(100 : ℚ)].length / 2) = ([] : List ℚ) ∧
    ((0 : ℤ) - 1).tmod 2 ≠ 0 ∧
    (((0 : ℤ) - 1).tdiv 2).toNat = 0 ∧ (((0 : ℤ) - 1).tdiv 2 + 1).toNat = 1 ∧
    ([] : List ℚ)[0]? = none ∧ ([] : List ℚ)[1]? = none ∧
    cppMedian ([] : List ℚ) = none ∧
    (quartiles [(100 : ℚ)]).q1 = none :=
  quartiles_singleton_q1_oob 100

/-! ## Claims about draining and empty-batch statistics (C4, C5) -/

/-- In every reachable statistics state an empty sample buffer forces all
three counters to zero: a counter is only ever bumped inside the critical
section that also appends a sample, and the drain resets everything at
once. -/
lemma counts_zero_of_latencies_nil (st : StatState) (h : StatsReachable st) :
    st.latencies = [] →
    st.numErrors = 0 ∧ st.numOptionalStuff1 = 0 ∧ st.numOptionalStuff2 = 0 := by
  induction h with
  | init => exact fun _ => ⟨rfl, rfl, rfl⟩
  | record st e s1 s2 lat hr ih =>
      intro he
      exact absurd he (by simp [recordResult])
  | drain st hr ih => exact fun _ => ⟨rfl, rfl, rfl⟩

/-- Claim C4: when the drained sample sequence is empty, every distributional
statistic computed by `report` — the five quartile entries, both tail
statistics, the arithmetic mean and the two classifier rates — is the NaN
sentinel. -/
theorem report_empty_batch_all_nan (st : StatState) (h : StatsReachable st)
    (hemp : (drainStats st).1.latencies = []) :
    (computeReport (drainStats st).1).latencyQuartiles = ⟨none, none, none, none, none⟩ ∧
    (computeReport (drainStats st).1).latency95 = none ∧
    (computeReport (drainStats st).1).latency99 = none ∧
    (computeReport (drainStats st).1).meanLatency = CDouble.nan ∧
    (computeReport (drainStats st).1).recommendationRate = CDouble.nan ∧
    (computeReport (drainStats st).1).commentRate = CDouble.nan := by
  have hlat : st.latencies = [] := hemp
  obtain ⟨h1, h2, h3⟩ := counts_zero_of_latencies_nil st h hlat
  simp [computeReport, drainStats, hlat, h1, h2, h3, quartiles, percentiles, average, ddiv]

/-- Witness for `report_empty_batch_all_nan` at the initial state. -/
theorem report_empty_batch_all_nan_witness :
    StatsReachable initStats ∧ (drainStats initStats).1.latencies = [] ∧
    ((computeReport (drainStats initStats).1).latencyQuartiles =
        ⟨none, none, none, none, none⟩ ∧
      (computeReport (drainStats initStats).1).latency95 = none ∧
      (computeReport (drainStats initStats).1).latency99 = none ∧
      (computeReport (drainStats initStats).1).meanLatency = CDouble.nan ∧
      (computeReport (drainStats initStats).1).recommendationRate = CDouble.nan ∧
      (computeReport (drainStats initStats).1).commentRate = CDouble.nan) :=
  ⟨StatsReachable.init, rfl, report_empty_batch_all_nan initStats StatsReachable.init rfl⟩

/-- Claim C5: draining twice in a row with no appends in between yields an
empty second batch (zero errors, zero classifier counts, no samples), and the
cumulative total-request counter gains exactly the sample count of the single
underlying batch — no sample is counted twice. -/
theorem drain_twice_no_double_count (st : StatState) (totalRequests : ℕ) :
    ((drainStats (drainStats st).2).1.numErrors = 0 ∧
     (drainStats (drainStats st).2).1.numOptionalStuff1 = 0 ∧
     (drainStats (drainStats st).2).1.numOptionalStuff2 = 0 ∧
     (drainStats (drainStats st).2).1.latencies = []) ∧
    totalRequests + (drainStats st).1.latencies.length +
        (drainStats (drainStats st).2).1.latencies.length =
      totalRequests + st.latencies.length :=
  ⟨⟨rfl, rfl, rfl, rfl⟩, rfl⟩

/-- Witness for `drain_twice_no_double_count` at a concrete dirty state. -/
theorem drain_twice_no_double_count_witness :
    ((drainStats (drainStats (⟨1, 2, 3, [(5 : ℚ), 7]⟩ : StatState)).2).1.numErrors = 0 ∧
     (drainStats (drainStats (⟨1, 2, 3, [(5 : ℚ), 7]⟩ : StatState)).2).1.numOptionalStuff1 = 0 ∧
     (drainStats (drainStats (⟨1, 2, 3, [(5 : ℚ), 7]⟩ : StatState)).2).1.numOptionalStuff2 = 0 ∧
     (drainStats (drainStats (⟨1, 2, 3, [(5 : ℚ), 7]⟩ : StatState)).2).1.latencies = []) ∧
    4 + (drainStats (⟨1, 2, 3, [(5 : ℚ), 7]⟩ : StatState)).1.latencies.length +
        (drainStats (drainStats (⟨1, 2, 3, [(5 : ℚ), 7]⟩ : StatState)).2).1.latencies.length =
      4 + (⟨1, 2, 3, [(5 : ℚ), 7]⟩ : StatState).latencies.length :=
  drain_twice_no_double_count ⟨1, 2, 3, [5, 7]⟩ 4

/-! ## Claims about the request budget (C2) -/

lemma deadCount_init (C : ℕ) (N : ℤ) : deadCount (initPool C N) = 0 := by
  simp [deadCount, initPool]

/-- Killing a live worker raises the dead-worker count by exactly one. -/
lemma deadCount_update (C : ℕ) (s : PoolState C) (w : Fin C) (hw : s.alive w = true) :
    (Finset.univ.filter fun x => Function.update s.alive w false x = false).card
      = deadCount s + 1 := by
  have hins : (Finset.univ.filter fun x => Function.update s.alive w false x = false)
      = insert w (Finset.univ.filter fun x => s.alive x = false) := by
    ext x
    by_cases hx : x = w
    · subst hx; simp
    · simp [Function.update_noteq hx, hx]
  rw [hins, Finset.card_insert_of_not_mem]
  · rfl
  · simp [hw]

/-- One step preserves the budget/sends invariant: the budget is `N` minus the
number of effective decrements, and the send counter is that number capped at
`N`. -/
lemma poolStep_inv {C : ℕ} (N : ℤ) (s : PoolState C) (w : Fin C)
    (h1 : s.budget = N - (s.sends + deadCount s))
    (h2 : (s.sends : ℤ) = min ((s.sends + deadCount s : ℕ) : ℤ) N) :
    (poolStep s w).budget = N - ((poolStep s w).sends + deadCount (poolStep s w)) ∧
    ((poolStep s w).sends : ℤ) =
      min (((poolStep s w).sends + deadCount (poolStep s w) : ℕ) : ℤ) N := by
  unfold poolStep
  by_cases hw : s.alive w
  · rw [if_pos hw]
    by_cases hb : 0 ≤ s.budget - 1
    · rw [if_pos hb]
      have hd : deadCount
          { s with budget := s.budget - 1, sends := s.sends + 1 } = deadCount s := rfl
      rw [hd]
      push_cast at h1 h2 ⊢
      omega
    · rw [if_neg hb]
      have hd : deadCount
          { s with budget := s.budget - 1, alive := Function.update s.alive w false }
            = deadCount s + 1 := deadCount_update C s w hw
      rw [hd]
      push_cast at h1 h2 ⊢
      omega
  · rw [if_neg hw]
    exact ⟨h1, h2⟩

lemma runPool_inv {C : ℕ} (N : ℤ) (t : List (Fin C)) (s : PoolState C)
    (h1 : s.budget = N - (s.sends + deadCount s))
    (h2 : (s.sends : ℤ) = min ((s.sends + deadCount s : ℕ) : ℤ) N) :
    (runPool s t).budget = N - ((runPool s t).sends + deadCount (runPool s t)) ∧
    ((runPool s t).sends : ℤ) =
      min (((runPool s t).sends + deadCount (runPool s t) : ℕ) : ℤ) N := by
  induction t generalizing s with
  | nil => exact ⟨h1, h2⟩
  | cons w t ih =>
      obtain ⟨g1, g2⟩ := poolStep_inv N s w h1 h2
      exact ih (poolStep s w) g1 g2

/-- A single pool step never increases the budget. -/
lemma poolStep_budget_le {C : ℕ} (s : PoolState C) (w : Fin C) :
    (poolStep s w).budget ≤ s.budget := by
  by_cases hw : s.alive w
  · by_cases hb : 0 ≤ s.budget - 1
    · have hstep : poolStep s w
          = { s with budget := s.budget - 1, sends := s.sends + 1 } := by
        simp [poolStep, hw, hb]
      rw [hstep]
      show s.budget - 1 ≤ s.budget
      omega
    · have hstep : poolStep s w
          = { s with budget := s.budget - 1, alive := Function.update s.alive w false } := by
        simp [poolStep, hw, hb]
      rw [hstep]
      show s.budget - 1 ≤ s.budget
      omega
  · have hstep : poolStep s w = s := by simp [poolStep, hw]
    rw [hstep]

lemma runPool_append {C : ℕ} (s : PoolState C) (t1 t2 : List (Fin C)) :
    runPool s (t1 ++ t2) = runPool (runPool s t1) t2 := by
  induction t1 generalizing s with
  | nil => rfl
  | cons w t ih => simp [runPool, ih]

lemma runPool_budget_le {C : ℕ} (s : PoolState C) (t : List (Fin C)) :
    (runPool s t).budget ≤ s.budget := by
  induction t generalizing s with
  | nil => exact le_refl _
  | cons w t ih => exact le_trans (ih (poolStep s w)) (poolStep_budget_le s w)

/-- Claim C2: if the run ends with every one of the `C ≥ 1` workers having
left its loop (budget exhausted, no external stop), the total number of sends
lies between `N` and `N + (C - 1)` (the model yields exactly `N`: the atomic
pre-decrement hands out exactly `N` non-negative results); along every
schedule the budget is monotonically non-increasing; and a step sends exactly
when its atomic decrement produced a still non-negative budget. -/
theorem budget_exhaustion_bounds (C : ℕ) (N : ℤ) (t : List (Fin C))
    (hC : 1 ≤ C) (hN : 0 ≤ N)
    (hdone : ∀ w : Fin C, (runPool (initPool C N) t).alive w = false) :
    (N ≤ ((runPool (initPool C N) t).sends : ℤ) ∧
      ((runPool (initPool C N) t).sends : ℤ) ≤ N + (C - 1)) ∧
    (∀ t1 t2 : List (Fin C),
      (runPool (initPool C N) (t1 ++ t2)).budget ≤ (runPool (initPool C N) t1).budget) ∧
    (∀ (s : PoolState C) (w : Fin C), (poolStep s w).sends ≠ s.sends →
      (poolStep s w).budget = s.budget - 1 ∧ 0 ≤ (poolStep s w).budget) := by
  refine ⟨?_, ?_, ?_⟩
  · have h1 : (initPool C N).budget
        = N - ((initPool C N).sends + deadCount (initPool C N)) := by
      rw [deadCount_init]
      simp [initPool]
    have h2 : ((initPool C N).sends : ℤ)
        = min (((initPool C N).sends + deadCount (initPool C N) : ℕ) : ℤ) N := by
      rw [deadCount_init]
      simp [initPool]
      omega
    obtain ⟨g1, g2⟩ := runPool_inv N t (initPool C N) h1 h2
    have hdead : deadCount (runPool (initPool C N) t) = C := by
      unfold deadCount
      rw [Finset.filter_true_of_mem (fun x _ => hdone x), Finset.card_univ, Fintype.card_fin]
    rw [hdead] at g2
    push_cast at g2
    omega
  · intro t1 t2
    rw [runPool_append]
    exact runPool_budget_le _ t2
  · intro s w hsends
    by_cases hw : s.alive w
    · by_cases hb : 0 ≤ s.budget - 1
      · have hstep : poolStep s w
            = { s with budget := s.budget - 1, sends := s.sends + 1 } := by
          simp [poolStep, hw, hb]
        rw [hstep]
        exact ⟨rfl, hb⟩
      · have hstep : poolStep s w
            = { s with budget := s.budget - 1, alive := Function.update s.alive w false } := by
          simp [poolStep, hw, hb]
        rw [hstep] at hsends
        exact absurd rfl hsends
    · have hstep : poolStep s w = s := by simp [poolStep, hw]
      rw [hstep] at hsends
      exact absurd rfl hsends

/-- Witness for `budget_exhaustion_bounds`: two workers, budget three, run to
exhaustion by the alternating schedule. -/
theorem budget_exhaustion_bounds_witness :
    (∀ w : Fin 2, (runPool (initPool 2 3) [0, 1, 0, 1, 0]).alive w = false) ∧
    (3 ≤ ((runPool (initPool 2 3) [0, 1, 0, 1, 0]).sends : ℤ) ∧
      ((runPool (initPool 2 3) [0, 1, 0, 1, 0]).sends : ℤ) ≤ 3 + (2 - 1)) :=
  ⟨by decide,
    (budget_exhaustion_bounds 2 3 [0, 1, 0, 1, 0] (by decide) (by decide) (by decide)).1⟩

/-! ## Claim about negative desired concurrency (C3) -/

/-- With a negative desired concurrency the shrink-loop condition
`size > concurrency` never becomes false: the loop pops every tracked worker
and then performs `back()`/`pop_back()` on an empty vector — the
undefined-behaviour branch — instead of stopping at zero. -/
lemma shrinkPool_of_neg (conc : ℤ) (hneg : conc < 0) :
    ∀ threads : List ℕ, shrinkPool threads conc = none := by
  have main : ∀ (n : ℕ) (threads : List ℕ), threads.length ≤ n →
      shrinkPool threads conc = none := by
    intro n
    induction n with
    | zero =>
        intro threads hlen
        have hnil : threads = [] := List.length_eq_zero.mp (by omega)
        subst hnil
        rw [shrinkPool.eq_def, if_pos (by omega : ((([] : List ℕ).length : ℤ)) > conc)]
    | succ n ih =>
        intro threads hlen
        rw [shrinkPool.eq_def, if_pos (by omega : ((threads.length : ℤ)) > conc)]
        cases threads with
        | nil => rfl
        | cons t ts =>
            have hlen2 : ts.length + 1 ≤ n + 1 := by simpa using hlen
            have hdl : (t :: ts).dropLast.length ≤ n := by
              rw [List.length_dropLast]
              simp
              omega
            exact ih _ hdl
  exact fun threads => main threads.length threads le_rfl

/-- Claim C3 describes the intent but not the code (code bug): the negative
value is indeed accepted without validation by `processInput`, but the
reconciliation loop does not terminate with zero live workers: at size zero
the condition `(int)threads.size() > concurrency` is still true for a negative
target, so the loop calls `back()` on an empty vector — undefined behaviour,
surfaced as `none`, never a clean empty pool. -/
theorem negative_concurrency_underflow :
    (processInput [] ("concurrency=-1\n".toList) ⟨0, 1, false⟩).2.concurrency = -1 ∧
    reconcilePool [0] (-1) = none ∧
    shrinkPool ([] : List ℕ) (-1) = none := by
  refine ⟨by decide, ?_, shrinkPool_of_neg (-1) (by norm_num) []⟩
  show shrinkPool (growPool [0] (-1)) (-1) = none
  have hgrow : growPool [0] (-1) = [0] := by
    rw [growPool]
    simp
  rw [hgrow]
  exact shrinkPool_of_neg (-1) (by norm_num) [0]

/-! ## Claim about the tail statistics (C6) -/

/-- Claim C6: for a non-empty sorted sample sequence the two tail statistics
are the medians of the suffixes starting at the `size_t` offsets
`90*n/100` and `98*n/100`, and these are exactly the values the report emits
under the labels `latency95` and `latency99`. -/
theorem percentiles_cutoffs (l : List ℚ) (hne : l ≠ []) (hs : l.Sorted (· ≤ ·)) :
    ∃ v90 v98,
      cppMedian (l.drop (90 * l.length / 100)) = some v90 ∧
      cppMedian (l.drop (98 * l.length / 100)) = some v98 ∧
      percentiles l = ⟨some v90, some v98⟩ ∧
      (computeReport ⟨0, 0, 0, l⟩).latency95 = some v90 ∧
      (computeReport ⟨0, 0, 0, l⟩).latency99 = some v98 := by
  have hlen : 1 ≤ l.length := List.length_pos.mpr hne
  have hd90 : l.drop (90 * l.length / 100) ≠ [] :=
    List.length_pos.mp (by rw [List.length_drop]; omega)
  have hd98 : l.drop (98 * l.length / 100) ≠ [] :=
    List.length_pos.mp (by rw [List.length_drop]; omega)
  obtain ⟨v90, hv90⟩ := cppMedian_isSome _ hd90
  obtain ⟨v98, hv98⟩ := cppMedian_isSome _ hd98
  have hsort : List.insertionSort (· ≤ ·) l = l := hs.insertionSort_eq
  have hn1 : ¬ (l.length < 1) := by omega
  have hperc : percentiles l = ⟨some v90, some v98⟩ := by
    simp only [percentiles, if_neg hn1, hsort, hv90, hv98]
  refine ⟨v90, v98, hv90, hv98, hperc, ?_, ?_⟩
  · show (percentiles l).p95 = some v90
    rw [hperc]
  · show (percentiles l).p99 = some v98
    rw [hperc]

/-- Witness for `percentiles_cutoffs` at the sorted sequence `[3, 4]`. -/
theorem percentiles_cutoffs_witness :
    ([(3 : ℚ), 4] : List ℚ) ≠ [] ∧ ([(3 : ℚ), 4] : List ℚ).Sorted (· ≤ ·) ∧
    (∃ v90 v98,
      cppMedian (([(3 : ℚ), 4] : List ℚ).drop (90 * ([(3 : ℚ), 4] : List ℚ).length / 100))
        = some v90 ∧
      cppMedian (([(3 : ℚ), 4] : List ℚ).drop (98 * ([(3 : ℚ), 4] : List ℚ).length / 100))
        = some v98 ∧
      percentiles [(3 : ℚ), 4] = ⟨some v90, some v98⟩ ∧
      (computeReport ⟨0, 0, 0, [(3 : ℚ), 4]⟩).latency95 = some v90 ∧
      (computeReport ⟨0, 0, 0, [(3 : ℚ), 4]⟩).latency99 = some v98) :=
  ⟨by decide, by decide, percentiles_cutoffs [3, 4] (by decide) (by decide)⟩

/-! ## Claim about the open-loop arrival schedule (C7) -/

/-- Claim C7: with positive think time in open mode, an iteration advances the
arrival schedule to `lastArrivalTime + interval` unconditionally (independent
of the observed latency, which does not enter the block at all), sleeps for
`max(nextArrival - now, 0)`, and bumps the cumulative queuing counter exactly
when that computed sleep is zero; in closed mode the queuing counter is never
modified. -/
theorem open_loop_iteration (thinkTime interval lastArrivalTime nowTime : ℚ)
    (q : ℕ) (hpos : 0 < thinkTime) :
    ((thinkTimeStep true thinkTime interval lastArrivalTime nowTime q).lastArrivalTime
        = lastArrivalTime + interval ∧
      (thinkTimeStep true thinkTime interval lastArrivalTime nowTime q).sleepFor
        = max (lastArrivalTime + interval - nowTime) 0 ∧
      ((thinkTimeStep true thinkTime interval lastArrivalTime nowTime q).sleepFor = 0 →
        (thinkTimeStep true thinkTime interval lastArrivalTime nowTime q).numOpenQueuing
          = q + 1) ∧
      ((thinkTimeStep true thinkTime interval lastArrivalTime nowTime q).sleepFor ≠ 0 →
        (thinkTimeStep true thinkTime interval lastArrivalTime nowTime q).numOpenQueuing
          = q)) ∧
    (∀ (th i la nw : ℚ) (q2 : ℕ),
      (thinkTimeStep false th i la nw q2).numOpenQueuing = q2) := by
  refine ⟨⟨?_, ?_, ?_, ?_⟩, ?_⟩
  · simp [thinkTimeStep, hpos]
  · simp [thinkTimeStep, hpos]
  · intro h
    simp only [thinkTimeStep, if_pos hpos, if_true] at h ⊢
    simp only [h, if_pos rfl]
    simp [h]
  · intro h
    simp only [thinkTimeStep, if_pos hpos, if_true] at h ⊢
    simp [h]
  · intro th i la nw q2
    by_cases hth : 0 < th
    · simp [thinkTimeStep, hth]
    · simp [thinkTimeStep, hth]

/-- Witness for `open_loop_iteration`: an arrival already overdue (scheduled
at 2, now 5) sleeps zero and bumps the queuing counter. -/
theorem open_loop_iteration_witness :
    (0 : ℚ) < 1 ∧
    ((thinkTimeStep true 1 2 0 5 0).lastArrivalTime = 0 + 2 ∧
      (thinkTimeStep true 1 2 0 5 0).sleepFor = max (0 + 2 - 5) 0 ∧
      ((thinkTimeStep true 1 2 0 5 0).sleepFor = 0 →
        (thinkTimeStep true 1 2 0 5 0).numOpenQueuing = 0 + 1) ∧
      ((thinkTimeStep true 1 2 0 5 0).sleepFor ≠ 0 →
        (thinkTimeStep true 1 2 0 5 0).numOpenQueuing = 0)) :=
  ⟨by norm_num, (open_loop_iteration 1 2 0 5 0 (by norm_num)).1⟩

/-! ## Claim about malformed reconfiguration tokens (C8) -/

/-- Claim C8: a token that does not split on `=` into exactly two parts is
skipped with the tunables unchanged; the remaining tokens of the line are
still processed; and in a full `processInput` call the lines after the
malformed line `foo=bar=baz` are still parsed and applied — `thinktime` as a
float into `thinkTime`, `concurrency` as an integer into the desired
concurrency, `open` as a truthy integer into the loop mode, with the unknown
key `bogus` logged and ignored. -/
theorem malformed_token_skipped :
    (∀ (c : TunableConfig) (tok : List Char),
      (splitCompress ['='] tok).length ≠ 2 → processToken c tok = c) ∧
    (∀ (c : TunableConfig) (pre post : List (List Char)) (tok : List Char),
      (splitCompress ['='] tok).length ≠ 2 →
      (pre ++ tok :: post).foldl processToken c
        = post.foldl processToken (pre.foldl processToken c)) ∧
    processInput [] ("foo=bar=baz\nthinktime=2.5 concurrency=3 open=1 bogus=7\n".toList)
        ⟨0, 100, false⟩
      = ([], ⟨5 / 2, 3, true⟩) := by
  have hskip : ∀ (c : TunableConfig) (tok : List Char),
      (splitCompress ['='] tok).length ≠ 2 → processToken c tok = c := by
    intro c tok h
    simp [processToken, h]
  refine ⟨hskip, ?_, ?_⟩
  · intro c pre post tok h
    rw [List.foldl_append, List.foldl_cons, hskip _ _ h]
  · have hrun : processInput []
        ("foo=bar=baz\nthinktime=2.5 concurrency=3 open=1 bogus=7\n".toList) ⟨0, 100, false⟩
        = ([], ⟨atof ("2.5".toList), 3, true⟩) := rfl
    have hatof : atof ("2.5".toList) = ((2 : ℕ) : ℚ) + (0 + (1 / 10) * ((5 : ℕ) : ℚ)) := rfl
    rw [hrun, hatof]
    norm_num

/-- Witness for `malformed_token_skipped` at the token `foo=bar=baz`. -/
theorem malformed_token_skipped_witness :
    (splitCompress ['='] ("foo=bar=baz".toList)).length ≠ 2 ∧
    processToken ⟨0, 100, false⟩ ("foo=bar=baz".toList) = ⟨0, 100, false⟩ :=
  ⟨by decide, malformed_token_skipped.1 ⟨0, 100, false⟩ _ (by decide)⟩
